import Mathlib

/-!
Shallow embedding of the fuzzy additive-search engine from
`backend/functions/src/utils/additiveSearchUtils.ts` (together with the
catalog snapshot in `backend/functions/src/scripts/seedData.ts`), and proofs
of the specified properties of that engine.

Strings are modelled as `List Char`; JavaScript numbers are modelled as `ℚ`
(every constant appearing in the engine is a small decimal literal).
JavaScript's `toLowerCase` is modelled on the basic-latin fragment, which is
the fragment exercised by the engine's Korean/ASCII data (Hangul characters
are unaffected by case mapping in both).
-/

namespace AdditiveSearch

/-- Strings are lists of characters. -/
abbrev Str := List Char

/-- Is `c` a precomposed Hangul syllable, i.e. in the character class `가-힣`? -/
def isHangulSyllable (c : Char) : Bool :=
  0xAC00 ≤ c.toNat && c.toNat ≤ 0xD7A3

/-- Is `c` in the JavaScript regex class `\w`, i.e. `[A-Za-z0-9_]`? -/
def isWordChar (c : Char) : Bool :=
  ('A' ≤ c && c ≤ 'Z') || ('a' ≤ c && c ≤ 'z') || c.isDigit || c = '_'

/-- Is `c` in the JavaScript regex class `\s` (whitespace)? -/
def isJsSpace (c : Char) : Bool :=
  c = ' ' || c = '\t' || c = '\n' || c = '\r' ||
  c.toNat = 0xB || c.toNat = 0xC || c.toNat = 0xA0 || c.toNat = 0x1680 ||
  (0x2000 ≤ c.toNat && c.toNat ≤ 0x200A) ||
  c.toNat = 0x2028 || c.toNat = 0x2029 || c.toNat = 0x202F ||
  c.toNat = 0x205F || c.toNat = 0x3000 || c.toNat = 0xFEFF

/-- JavaScript `String.prototype.toLowerCase` on the basic-latin fragment:
applied characterwise; Hangul syllables and jamo are fixed points. -/
def toLowerCase (s : Str) : Str := s.map Char.toLower

/-- JavaScript `haystack.includes(needle)`: is `needle` a contiguous
substring of `haystack` (always true for the empty needle)? -/
def jsIncludes (s sub : Str) : Bool :=
  match s with
  | [] => sub.isEmpty
  | _ :: rest => sub.isPrefixOf s || jsIncludes rest sub

/-- JavaScript `trim`: strip leading and trailing whitespace. -/
def jsTrim (s : Str) : Str :=
  ((s.dropWhile isJsSpace).reverse.dropWhile isJsSpace).reverse

/-- The insertion step of a JavaScript `Set` built by iterating a list:
append the element unless it is already present. -/
def setInsert {α : Type} [DecidableEq α] (acc : List α) (a : α) : List α :=
  if a ∈ acc then acc else acc ++ [a]

/-- The insertion-ordered distinct elements of `l`, as produced by
`[...new Set(l)]` in JavaScript. -/
def jsSetDedup {α : Type} [DecidableEq α] (l : List α) : List α :=
  l.foldl setInsert []

/-- `String.prototype.replace(new RegExp(c, 'g'), r)` for a single
(non-metacharacter) character `c`: every occurrence of `c` becomes `r`. -/
def replaceAllChar (c : Char) (r : Str) (s : Str) : Str :=
  s.flatMap fun x => if x = c then r else [x]

/-- The OCR-correction substitution table of `correctOCRErrors`, in the order
`Object.entries` enumerates it: the array-index-like keys `'0'`, `'1'`, `'5'`
first in ascending numeric order, then the string keys in insertion order. -/
def corrections : List (Char × Str) :=
  [ ('0', ['o']), ('1', ['l']), ('5', ['s']),
    ('ㅇ', ['o']), ('ㅁ', ['m']), ('ㄴ', ['n']), ('ㄹ', ['r']),
    ('ㅅ', ['s']), ('ㅌ', ['t']), ('ㅍ', ['p']), ('ㅎ', ['h']),
    ('l', ['1']), ('o', ['0']), ('s', ['5']),
    ('·', []), ('•', []), ('－', ['-']), ('—', ['-']),
    ('\u00A0', [' ']), ('\u2009', [' ']), ('\u200B', []) ]

/-- `correctOCRErrors`: apply each substitution of the table globally, in
enumeration order, to the whole string. -/
def correctOCRErrors (text : Str) : Str :=
  corrections.foldl (fun acc p => replaceAllChar p.1 p.2 acc) text

/-- Characters removed by `normalizeText`'s first replace:
the class `[()[\]{}\"']`. -/
def isBracketQuote (c : Char) : Bool :=
  c = '(' || c = ')' || c = '[' || c = ']' || c = '{' || c = '}' ||
  c = '"' || c = '\''

/-- Characters removed by `normalizeText`'s second replace:
the class `[\s\-_·•]`. -/
def isStripChar (c : Char) : Bool :=
  isJsSpace c || c = '-' || c = '_' || c = '·' || c = '•'

/-- Characters kept by `normalizeText`'s third replace, which removes the
complement class `[^\w가-힣]`. -/
def isKeptChar (c : Char) : Bool :=
  isWordChar c || isHangulSyllable c

/-- `normalizeText`: lowercase, drop brackets and quotes, drop whitespace,
hyphen, underscore and middle dots, then keep only `\w` and Hangul. -/
def normalizeText (text : Str) : Str :=
  (((toLowerCase text).filter (fun c => !isBracketQuote c)).filter
      (fun c => !isStripChar c)).filter isKeptChar

/-- `calculateStringSimilarity`: enhanced character-set Jaccard similarity
with a substring bonus, as in the source, including its early returns. -/
def calculateStringSimilarity (s1 s2 : Str) : ℚ :=
  if s1 = s2 then 1
  else if s1.length = 0 ∨ s2.length = 0 then 0
  else
    let normalized1 := normalizeText (correctOCRErrors s1)
    let normalized2 := normalizeText (correctOCRErrors s2)
    if normalized1 = normalized2 then 1
    else
      let set1 := jsSetDedup normalized1
      let set2 := jsSetDedup normalized2
      let inter := (set1.filter fun c => decide (c ∈ set2)).length
      let union := (jsSetDedup (set1 ++ set2)).length
      let jaccardSimilarity : ℚ := (inter : ℚ) / (union : ℚ)
      let substringBonus : ℚ :=
        max (if jsIncludes normalized1 normalized2 then 0.2 else 0)
            (if jsIncludes normalized2 normalized1 then 0.2 else 0)
      min 1 (jaccardSimilarity + substringBonus)

/-- The additive-relevant keywords that `isCommonWord` never filters out. -/
def importantAdditiveKeywords : List Str :=
  ["산도조절제".data, "향미증진제".data, "구아검".data, "잔탄검".data,
   "전분".data, "변성전분".data, "글루텐".data, "인산".data, "포도당".data,
   "정백당".data, "토코페롤".data, "비타민".data, "이스트".data]

/-- The stoplist of common non-additive words used by `isCommonWord`. -/
def commonWords : List Str :=
  ["and".data, "or".data, "the".data, "a".data, "an".data, "in".data,
   "on".data, "at".data, "to".data, "for".data, "of".data, "with".data,
   "contains".data, "includes".data, "less".data, "than".data, "more".data,
   "each".data, "per".data, "total".data,
   "그리고".data, "또는".data, "및".data, "등".data, "포함".data,
   "함량".data, "이하".data, "기타".data, "각종".data,
   "사용".data, "제품".data, "식품".data, "국산".data, "중국산".data,
   "미국산".data, "호주산".data, "말레이시아산".data,
   "면류".data, "스프류".data, "블럭".data, "분말".data, "추출물".data,
   "시즈닝".data, "베이스".data, "양념".data,
   "일까지".data, "케이".data, "함은".data, "원료명".data]

/-- `isCommonWord`: a word is filtered out when it is on the common-word
stoplist, unless it overlaps (substring in either direction,
case-insensitively) with an important additive keyword. -/
def isCommonWord (word : Str) : Bool :=
  if importantAdditiveKeywords.any (fun keyword =>
       jsIncludes (toLowerCase word) (toLowerCase keyword) ||
       jsIncludes (toLowerCase keyword) (toLowerCase word)) then
    false
  else decide (toLowerCase word ∈ commonWords)

/-- Characters of the class `[()[\]{}\"']` are replaced by a space in the
keyword extractor's first replace. -/
def bracketToSpace (c : Char) : Char :=
  if isBracketQuote c then ' ' else c

/-- `replace(/\s+/g, ' ')`: collapse every maximal whitespace run to one
space (the space is emitted at the last character of the run). -/
def collapseSpaces : Str → Str
  | [] => []
  | c :: rest =>
    if isJsSpace c then
      match rest with
      | [] => [' ']
      | d :: _ =>
        if isJsSpace d then collapseSpaces rest else ' ' :: collapseSpaces rest
    else c :: collapseSpaces rest

/-- Characters kept (not replaced by a space) by the keyword extractor's
third replace, which removes the complement class `[^\w가-힣\s,;:·•\-]`. -/
def isKeywordKeptChar (c : Char) : Bool :=
  isWordChar c || isHangulSyllable c || isJsSpace c ||
  c = ',' || c = ';' || c = ':' || c = '·' || c = '•' || c = '-'

/-- Is `c` in the keyword-splitting delimiter class `[,\n;:·•\-\/\|\s()[\]{}]`? -/
def isDelimiter (c : Char) : Bool :=
  c = ',' || c = '\n' || c = ';' || c = ':' || c = '·' || c = '•' ||
  c = '-' || c = '/' || c = '|' || isJsSpace c ||
  c = '(' || c = ')' || c = '[' || c = ']' || c = '{' || c = '}'

/-- Split at every delimiter character.  The JavaScript regex split merges
delimiter runs into one separator; the two differ only in empty segments,
which the `length > 1` filter applied to every use removes. -/
def splitEvery (p : Char → Bool) : Str → List Str
  | [] => [[]]
  | c :: rest =>
    if p c then [] :: splitEvery p rest
    else
      match splitEvery p rest with
      | s :: ss => (c :: s) :: ss
      | [] => [[c]]

/-- Maximal runs of 2 or more Hangul syllables: `text.match(/[가-힣]{2,}/g)`
(with `null` modelled as the empty list).  `run` accumulates the current run
in reverse. -/
def hangulRunsAux : Str → Str → List Str
  | [], run => if 2 ≤ run.length then [run.reverse] else []
  | c :: rest, run =>
    if isHangulSyllable c then hangulRunsAux rest (c :: run)
    else
      (if 2 ≤ run.length then [run.reverse] else []) ++ hangulRunsAux rest []

/-- All maximal runs of 2 or more Hangul syllables in `s`, in order. -/
def hangulRuns (s : Str) : List Str := hangulRunsAux s []

/-- The regex `/([가-힣]+)(\d+)([가-힣]*)/` anchored at the start of `s`:
a maximal nonempty Hangul run, then a maximal nonempty digit run, then a
maximal (possibly empty) Hangul run.  The character classes are disjoint, so
the greedy runs need no backtracking. -/
def matchNumberedAt (s : Str) : Option (Str × Str × Str) :=
  let h1 := s.takeWhile isHangulSyllable
  if h1.isEmpty then none
  else
    let r1 := s.drop h1.length
    let d := r1.takeWhile Char.isDigit
    if d.isEmpty then none
    else
      let h2 := (r1.drop d.length).takeWhile isHangulSyllable
      some (h1, d, h2)

/-- `keyword.match(/([가-힣]+)(\d+)([가-힣]*)/)`: the leftmost match of the
numbered-additive pattern, with its three capture groups. -/
def findNumbered : Str → Option (Str × Str × Str)
  | [] => none
  | c :: rest =>
    match matchNumberedAt (c :: rest) with
    | some r => some r
    | none => findNumbered rest

/-- Comparator order of `sort((a, b) => b.length - a.length)`:
`a` may precede `b` exactly when the comparator is nonpositive. -/
def byLengthDesc (a b : Str) : Bool := decide (b.length ≤ a.length)

/-- Insert `a` into `l` before the first element that may not precede it. -/
def insertLe {α : Type} (le : α → α → Bool) (a : α) : List α → List α
  | [] => [a]
  | b :: l => if le a b then a :: b :: l else b :: insertLe le a l

/-- Insertion sort with a boolean comparator; models
`Array.prototype.sort`, which produces a permutation of its input ordered by
the comparator. -/
def insSort {α : Type} (le : α → α → Bool) : List α → List α
  | [] => []
  | a :: l => insertLe le a (insSort le l)

/-- `normalizeAndExtractKeywords`: OCR-correct, normalize spacing, split on
delimiters, add Hangul runs of the original text, numbered-additive parts and
space-collapsed compounds, then deduplicate, sort longest-first and cap at
15 keywords. -/
def normalizeAndExtractKeywords (text : Str) : List Str :=
  let correctedText := correctOCRErrors text
  let normalized :=
    jsTrim ((collapseSpaces ((toLowerCase correctedText).map bracketToSpace)).map
      (fun c => if isKeywordKeptChar c then c else ' '))
  let rawKeywords :=
    (((splitEvery isDelimiter normalized).map jsTrim).filter
        (fun keyword => 1 < keyword.length)).filter
      (fun keyword => !isCommonWord keyword)
  let koreanWords := hangulRuns text
  let numberedAdditives :=
    (rawKeywords ++ koreanWords).flatMap fun keyword =>
      match findNumbered keyword with
      | some (h1, d, h2) =>
        [keyword] ++ (if 1 < h1.length then [h1] else []) ++
          (if 0 < h2.length then [d ++ h2] else [])
      | none => []
  let spacelessWords :=
    (rawKeywords.filter fun word => decide (' ' ∈ word)).map
      (fun word => word.filter fun c => !isJsSpace c)
  let allKeywords :=
    rawKeywords ++
      (koreanWords.filter fun word => 1 < word.length && !isCommonWord word) ++
      numberedAdditives ++ spacelessWords
  (insSort byLengthDesc
      ((jsSetDedup allKeywords).filter fun keyword => 1 < keyword.length)).take 15

/-- A catalog record, restricted to the fields the search engine reads
(`description_short` and `description_full` are never consulted).
`hazard_level` is optional because documents fetched from the store may lack
the field; absent or unrecognized levels rank after `low` when sorting. -/
structure AdditiveEntry where
  id : Str
  name : Str
  aliases : List Str
  hazard_level : Option Str
deriving DecidableEq

/-- The match metadata computed by one matching strategy.  The source also
attaches a human-readable `matchDetails` debug string on partial and fuzzy
matches; it is a pure description and is omitted here. -/
structure MatchInfo where
  matchType : Str
  matchScore : ℚ
  matchedTerm : Str
deriving DecidableEq

/-- The JavaScript object `{...additive, ...bestMatch}`: an additive entry
spread together with its match metadata. -/
structure MatchResult where
  id : Str
  name : Str
  aliases : List Str
  hazard_level : Option Str
  matchType : Str
  matchScore : ℚ
  matchedTerm : Str
deriving DecidableEq

/-- Spread an entry and a match into one result object. -/
def mkResult (a : AdditiveEntry) (m : MatchInfo) : MatchResult :=
  ⟨a.id, a.name, a.aliases, a.hazard_level, m.matchType, m.matchScore,
    m.matchedTerm⟩

/-- The partial-match test of strategy 3: either string contains the other,
on raw or normalized forms. -/
def isPartialMatch (keyword searchTerm nk nt : Str) : Bool :=
  jsIncludes searchTerm (toLowerCase keyword) || jsIncludes nt nk ||
  jsIncludes (toLowerCase keyword) searchTerm || jsIncludes nk nt

/-- The inner `for (const searchTerm of allSearchTerms)` loop of
`findAdditiveMatches`, carrying `bestMatch` and `bestScore`.  Strategy 1
(exact) `break`s out of the loop without touching `bestScore`; strategies
2 and 3 `continue`; strategy 4 (fuzzy) falls through to the next term. -/
def matchLoop (keyword nk : Str) :
    List Str → Option MatchInfo → ℚ → Option MatchInfo × ℚ
  | [], bestMatch, bestScore => (bestMatch, bestScore)
  | searchTerm :: rest, bestMatch, bestScore =>
    let nt := normalizeText (correctOCRErrors searchTerm)
    if searchTerm = toLowerCase keyword then
      (some ⟨"exact".data, 1.0, keyword⟩, bestScore)
    else if nt = nk ∧ 2 < nk.length then
      if bestScore < 0.95 then
        matchLoop keyword nk rest (some ⟨"normalized_exact".data, 0.95, keyword⟩)
          0.95
      else matchLoop keyword nk rest bestMatch bestScore
    else if isPartialMatch keyword searchTerm nk nt then
      let longerLength :=
        max (max searchTerm.length keyword.length) (max nt.length nk.length)
      let shorterLength :=
        min (min searchTerm.length keyword.length) (min nt.length nk.length)
      let score := min 0.9 (((shorterLength : ℚ) / (longerLength : ℚ)) * 0.85)
      if bestScore < score then
        matchLoop keyword nk rest (some ⟨"partial".data, score, keyword⟩) score
      else matchLoop keyword nk rest bestMatch bestScore
    else
      let similarity := calculateStringSimilarity keyword searchTerm
      let threshold : ℚ := if 4 < keyword.length then 0.3 else 0.5
      if threshold ≤ similarity ∧ bestScore < similarity * 0.7 then
        matchLoop keyword nk rest
          (some ⟨"fuzzy".data, similarity * 0.7, keyword⟩) (similarity * 0.7)
      else matchLoop keyword nk rest bestMatch bestScore

/-- `findAdditiveMatches`: run the strategy loop over each entry's
lowercased name and aliases; keep the entry's best match only when
`bestScore > 0.2`. -/
def findAdditiveMatches (keyword : Str) (additives : List AdditiveEntry) :
    List MatchResult :=
  let normalizedKeyword := normalizeText (correctOCRErrors keyword)
  additives.filterMap fun additive =>
    let additiveName := toLowerCase additive.name
    let aliases := additive.aliases.map toLowerCase
    match matchLoop keyword normalizedKeyword (additiveName :: aliases) none 0 with
    | (some bestMatch, bestScore) =>
      if 0.2 < bestScore then some (mkResult additive bestMatch) else none
    | (none, _) => none

/-- One step of the `uniqueMap` construction of `removeDuplicatesAndSort`:
`map.set(id, additive)` when the id is new or the new score is strictly
higher; a `Map` keeps the original key position on overwrite. -/
def dedupInsert (acc : List MatchResult) (additive : MatchResult) :
    List MatchResult :=
  if acc.any (fun existing => decide (existing.id = additive.id)) then
    acc.map fun existing =>
      if existing.id = additive.id ∧ existing.matchScore < additive.matchScore
      then additive else existing
  else acc ++ [additive]

/-- Severity rank of a hazard level: `hazardOrder[h] ?? 3`. -/
def hazardRank (h : Option Str) : Nat :=
  match h with
  | some s =>
    if s = "high".data then 0
    else if s = "medium".data then 1
    else if s = "low".data then 2
    else 3
  | none => 3

/-- Comparator order of the result sort: score descending, then hazard rank
ascending.  `a` may precede `b` exactly when the comparator is nonpositive. -/
def resultLE (a b : MatchResult) : Bool :=
  decide (b.matchScore < a.matchScore ∨
    (b.matchScore = a.matchScore ∧
      hazardRank a.hazard_level ≤ hazardRank b.hazard_level))

/-- `removeDuplicatesAndSort`: keep the best-scoring match per id, then sort
by score descending with the hazard-level tie-break. -/
def removeDuplicatesAndSort (additives : List MatchResult) :
    List MatchResult :=
  insSort resultLE (additives.foldl dedupInsert [])

/-- The keyword loop of `searchAdditivesWithFuzzyMatching`, with its early
exit once 10 or more matches have accumulated. -/
def collectMatches (additives : List AdditiveEntry) :
    List Str → List MatchResult → List MatchResult
  | [], found => found
  | keyword :: rest, found =>
    let found2 := found ++ findAdditiveMatches keyword additives
    if 10 ≤ found2.length then found2
    else collectMatches additives rest found2

/-- The matches accumulated for a search: at most 8 extracted keywords, of
which at most 6 are scored. -/
def foundMatches (additives : List AdditiveEntry) (text : Str) :
    List MatchResult :=
  collectMatches additives (((normalizeAndExtractKeywords text).take 8).take 6) []

/-- The body of `searchAdditivesWithFuzzyMatching` inside its `try`. -/
def searchCore (additives : List AdditiveEntry) (text : Str) :
    List MatchResult :=
  (removeDuplicatesAndSort (foundMatches additives text)).take 8

/-- The `try` block's outcome.  A `null`/`undefined` argument raises a
`TypeError` at the first string-method call inside the block; that is the
one raising site reachable from the public boundary, since the catalog
loader catches its own failures. -/
def searchBody (additives : List AdditiveEntry) (input : Option Str) :
    Except Unit (List MatchResult) :=
  match input with
  | none => .error ()
  | some text => .ok (searchCore additives text)

/-- `searchAdditivesWithFuzzyMatching`: the public search entry point; the
`catch` converts any failure of the body into an empty result array. -/
def searchAdditivesWithFuzzyMatching (additives : List AdditiveEntry)
    (input : Option Str) : List MatchResult :=
  match searchBody additives input with
  | .ok results => results
  | .error _ => []

/-- The bundled static catalog snapshot `additiveData` from
`scripts/seedData.ts`, restricted to the fields the engine reads. -/
def additiveData : List AdditiveEntry :=
[
  ⟨"sodium-benzoate".data, "안식향산나트륨".data, ["안식향산나트륨".data, "벤조산나트륨".data], some ("medium".data)⟩,
  ⟨"aspartame".data, "아스파탐".data, ["아스파탐".data, "뉴트라스위트".data, "이퀄".data], some ("high".data)⟩,
  ⟨"msg".data, "글루탐산나트륨".data, ["글루탐산나트륨".data, "미원".data, "조미료".data], some ("medium".data)⟩,
  ⟨"citric-acid".data, "구연산".data, ["구연산".data], some ("low".data)⟩,
  ⟨"red-dye-40".data, "적색 40호".data, ["적색40호".data, "알루라레드".data], some ("high".data)⟩,
  ⟨"carrageenan".data, "카라기난".data, ["카라기난".data], some ("medium".data)⟩,
  ⟨"bha".data, "BHA".data, ["부틸화히드록시아니솔".data], some ("high".data)⟩,
  ⟨"sodium-nitrite".data, "아질산나트륨".data, ["아질산나트륨".data], some ("high".data)⟩,
  ⟨"high-fructose-corn-syrup".data, "과당포도당액".data, ["과당포도당액".data, "콘시럽".data], some ("medium".data)⟩,
  ⟨"lecithin".data, "레시틴".data, ["레시틴".data, "대두레시틴".data, "해바라기레시틴".data], some ("low".data)⟩,
  ⟨"potassium-benzoate".data, "안식향산칼륨".data, ["안식향산칼륨".data], some ("medium".data)⟩,
  ⟨"calcium-benzoate".data, "안식향산칼슘".data, ["안식향산칼슘".data], some ("medium".data)⟩,
  ⟨"sodium-sulfite".data, "아황산나트륨".data, ["아황산나트륨".data], some ("high".data)⟩,
  ⟨"potassium-metabisulfite".data, "메타중아황산칼륨".data, ["메타중아황산칼륨".data], some ("high".data)⟩,
  ⟨"potassium-nitrate".data, "질산칼륨".data, ["질산칼륨".data], some ("high".data)⟩,
  ⟨"sorbic-acid".data, "소르빈산".data, ["소르빈산".data], some ("low".data)⟩,
  ⟨"calcium-propionate".data, "프로피온산칼슘".data, ["프로피온산칼슘".data], some ("low".data)⟩,
  ⟨"sodium-propionate".data, "프로피온산나트륨".data, ["프로피온산나트륨".data], some ("low".data)⟩,
  ⟨"e471".data, "모노·디글리세리드".data, ["모노글리세리드".data, "디글리세리드".data], some ("low".data)⟩,
  ⟨"polysorbate-80".data, "폴리소르베이트 80".data, ["폴리소르베이트80".data], some ("medium".data)⟩,
  ⟨"pgpr".data, "PGPR".data, ["PGPR".data, "폴리글리세롤폴리리시놀레산".data], some ("low".data)⟩,
  ⟨"guar-gum".data, "구아검".data, ["구아검".data], some ("low".data)⟩,
  ⟨"xanthan-gum".data, "잔탄검".data, ["잔탄검".data], some ("low".data)⟩,
  ⟨"agar".data, "아가".data, ["한천".data, "아가".data], some ("low".data)⟩,
  ⟨"cmc".data, "카복시메틸셀룰로스".data, ["CMC".data, "카복시메틸셀룰로오스".data], some ("medium".data)⟩,
  ⟨"mcc".data, "미결정셀룰로스".data, ["미결정셀룰로스".data], some ("low".data)⟩,
  ⟨"modified-starch".data, "변성전분".data, ["변성전분".data, "개량전분".data], some ("low".data)⟩,
  ⟨"pectin".data, "펙틴".data, ["펙틴".data], some ("low".data)⟩,
  ⟨"disodium-inosinate".data, "디소듐이노신산".data, ["디소듐이노신산".data], some ("low".data)⟩,
  ⟨"disodium-guanylate".data, "디소듐구아닐산".data, ["디소듐구아닐산".data], some ("low".data)⟩,
  ⟨"yeast-extract".data, "효모추출물".data, ["효모추출물".data], some ("low".data)⟩,
  ⟨"yellow-5".data, "황색 5호".data, ["황색5호".data, "타르라진".data], some ("medium".data)⟩,
  ⟨"blue-1".data, "청색 1호".data, ["청색1호".data, "브릴리언트블루".data], some ("medium".data)⟩,
  ⟨"red-3".data, "적색 3호".data, ["적색3호".data, "에리트로신".data], some ("high".data)⟩,
  ⟨"yellow-6".data, "황색 6호".data, ["황색6호".data, "선셋옐로우".data], some ("medium".data)⟩,
  ⟨"sucralose".data, "수크랄로스".data, ["수크랄로스".data], some ("medium".data)⟩,
  ⟨"saccharin".data, "사카린".data, ["사카린".data], some ("medium".data)⟩,
  ⟨"acesulfame-k".data, "아세설팜칼륨".data, ["아세설팜칼륨".data], some ("medium".data)⟩,
  ⟨"xylitol".data, "자일리톨".data, ["자일리톨".data], some ("low".data)⟩,
  ⟨"erythritol".data, "에리트리톨".data, ["에리트리톨".data], some ("medium".data)⟩,
  ⟨"sorbitol".data, "소르비톨".data, ["소르비톨".data], some ("medium".data)⟩,
  ⟨"stevia".data, "스테비아".data, ["스테비아".data], some ("low".data)⟩,
  ⟨"monk-fruit".data, "몽크후르트".data, ["몽크후르트".data, "루오한궈".data], some ("low".data)⟩,
  ⟨"bht".data, "BHT".data, ["부틸화히드록시톨루엔".data], some ("high".data)⟩,
  ⟨"tbhq".data, "TBHQ".data, ["테르셔리부틸하이드로퀴논".data], some ("high".data)⟩,
  ⟨"tocopherol".data, "토코페롤".data, ["토코페롤".data, "비타민E".data], some ("low".data)⟩,
  ⟨"phosphoric-acid".data, "인산".data, ["인산".data], some ("medium".data)⟩,
  ⟨"malic-acid".data, "말산".data, ["말산".data], some ("low".data)⟩,
  ⟨"sodium-bicarbonate".data, "탄산수소나트륨".data, ["베이킹소다".data, "중조".data], some ("low".data)⟩,
  ⟨"cream-of-tartar".data, "타르타르크림".data, ["타르타르크림".data, "주석산칼륨".data], some ("low".data)⟩,
  ⟨"sodium-aluminum-phosphate".data, "산성 인산 알루미늄나트륨".data, ["산성인산알루미늄나트륨".data], some ("medium".data)⟩,
  ⟨"nisin".data, "니신".data, ["니신".data], some ("low".data)⟩,
  ⟨"natamycin".data, "나타마이신".data, ["나타마이신".data], some ("low".data)⟩
]

/-- The module-level cache state: `additivesCache` and the in-flight
`cacheLoadPromise` (modelled as a flag; with sequential callers the promise
is created, awaited and cleared within a single call, so the flag is false
between calls — the promise-sharing path for concurrent callers has no
sequential counterpart). -/
structure CacheState where
  additivesCache : Option (List AdditiveEntry)
  cacheLoadPromise : Bool
deriving DecidableEq

/-- Outcome of the one Firestore read `db.collection('additives').get()`. -/
inductive FetchOutcome where
  | ok (docs : List AdditiveEntry)
  | fail
deriving DecidableEq

/-- `getCachedAdditives`, sequentially: return the cache when present;
otherwise load from the store, falling back to the bundled snapshot when the
snapshot is empty or the fetch fails, memoize the outcome and clear the
loading promise. -/
def getCachedAdditives (st : CacheState) (fetch : FetchOutcome) :
    List AdditiveEntry × CacheState :=
  match st.additivesCache with
  | some cache => (cache, st)
  | none =>
    let cache :=
      match fetch with
      | .ok docs =>
        if docs.isEmpty then additiveData.map fun additive => { additive with id := additive.id }
        else docs.map fun doc => { doc with id := doc.id }
      | .fail => additiveData.map fun additive => { additive with id := additive.id }
    (cache, ⟨some cache, false⟩)

/-! ### Sorting infrastructure -/

theorem insertLe_perm {α : Type} (le : α → α → Bool) (a : α) (l : List α) :
    List.Perm (insertLe le a l) (a :: l) := by
  induction l with
  | nil => exact List.Perm.refl _
  | cons b l ih =>
    unfold insertLe
    split
    · exact List.Perm.refl _
    · exact (List.Perm.cons b ih).trans (List.Perm.swap a b l)

theorem insSort_perm {α : Type} (le : α → α → Bool) (l : List α) :
    List.Perm (insSort le l) l := by
  induction l with
  | nil => exact List.Perm.refl _
  | cons a l ih => exact (insertLe_perm le a (insSort le l)).trans (ih.cons a)

theorem mem_insertLe {α : Type} {le : α → α → Bool} {a x : α} {l : List α} :
    x ∈ insertLe le a l ↔ x = a ∨ x ∈ l := by
  rw [(insertLe_perm le a l).mem_iff, List.mem_cons]

theorem pairwise_insertLe {α : Type} {le : α → α → Bool}
    (htot : ∀ a b, le a b = true ∨ le b a = true)
    (htrans : ∀ a b c, le a b = true → le b c = true → le a c = true)
    {l : List α} (h : l.Pairwise fun x y => le x y = true) (a : α) :
    (insertLe le a l).Pairwise fun x y => le x y = true := by
  induction l with
  | nil => simp [insertLe]
  | cons b l ih =>
    rcases List.pairwise_cons.mp h with ⟨hb, hl⟩
    unfold insertLe
    split
    · rename_i hab
      refine List.pairwise_cons.mpr ⟨?_, h⟩
      intro x hx
      rcases List.mem_cons.mp hx with rfl | hx
      · exact hab
      · exact htrans a b x hab (hb x hx)
    · rename_i hab
      have hba : le b a = true := by
        rcases htot a b with h' | h'
        · exact absurd h' hab
        · exact h'
      refine List.pairwise_cons.mpr ⟨?_, ih hl⟩
      intro x hx
      rcases mem_insertLe.mp hx with rfl | hx
      · exact hba
      · exact hb x hx

theorem insSort_pairwise {α : Type} (le : α → α → Bool)
    (htot : ∀ a b, le a b = true ∨ le b a = true)
    (htrans : ∀ a b c, le a b = true → le b c = true → le a c = true)
    (l : List α) : (insSort le l).Pairwise fun x y => le x y = true := by
  induction l with
  | nil => simp [insSort]
  | cons a l ih => exact pairwise_insertLe htot htrans ih a

theorem resultLE_total (a b : MatchResult) :
    resultLE a b = true ∨ resultLE b a = true := by
  simp only [resultLE, decide_eq_true_eq]
  rcases lt_trichotomy a.matchScore b.matchScore with h | h | h
  · right; left; exact h
  · rcases Nat.le_total (hazardRank a.hazard_level) (hazardRank b.hazard_level)
      with h' | h'
    · left; right; exact ⟨h.symm, h'⟩
    · right; right; exact ⟨h, h'⟩
  · left; left; exact h

theorem resultLE_trans (a b c : MatchResult) :
    resultLE a b = true → resultLE b c = true → resultLE a c = true := by
  simp only [resultLE, decide_eq_true_eq]
  rintro (h1 | ⟨h1, h1'⟩) (h2 | ⟨h2, h2'⟩)
  · left; exact h2.trans h1
  · left; rwa [h2]
  · left; rwa [← h1]
  · right; exact ⟨h2.trans h1, h1'.trans h2'⟩

/-! ### Claims C4, C5, C6 -/

/-- C4: the public search function never lets a failure escape: for every
catalog and every input (including the `null`-like `none`), it returns a
list, and whenever the body of the `try` block fails the returned list is
empty. -/
theorem search_never_throws (additives : List AdditiveEntry)
    (input : Option Str) :
    searchAdditivesWithFuzzyMatching additives input = [] ∨
      searchBody additives input =
        .ok (searchAdditivesWithFuzzyMatching additives input) := by
  cases input with
  | none => left; rfl
  | some text => right; rfl

/-- C5: for every catalog and input, the search returns at most 8 results. -/
theorem search_results_bounded (additives : List AdditiveEntry)
    (input : Option Str) :
    (searchAdditivesWithFuzzyMatching additives input).length ≤ 8 := by
  cases input with
  | none => simp [searchAdditivesWithFuzzyMatching, searchBody]
  | some text =>
    show ((removeDuplicatesAndSort (foundMatches additives text)).take 8).length ≤ 8
    simp [List.length_take]

/-- C6: every returned result list is sorted by score descending, and among
equal scores by hazard severity rank ascending (with unknown or missing
hazard levels ranked 3, after `low`). -/
theorem search_results_sorted (additives : List AdditiveEntry)
    (input : Option Str) :
    (searchAdditivesWithFuzzyMatching additives input).Pairwise
      (fun a b => b.matchScore ≤ a.matchScore ∧
        (a.matchScore = b.matchScore →
          hazardRank a.hazard_level ≤ hazardRank b.hazard_level)) := by
  cases input with
  | none => exact List.Pairwise.nil
  | some text =>
    have h := insSort_pairwise resultLE resultLE_total resultLE_trans
      ((foundMatches additives text).foldl dedupInsert [])
    have h2 : (searchAdditivesWithFuzzyMatching additives (some text)).Pairwise
        (fun a b => resultLE a b = true) := by
      show (((insSort resultLE _)).take 8).Pairwise _
      exact h.sublist (List.take_sublist 8 _)
    refine h2.imp ?_
    intro a b hab
    simp only [resultLE, decide_eq_true_eq] at hab
    rcases hab with h' | ⟨h', h''⟩
    · exact ⟨le_of_lt h', fun heq => absurd (heq ▸ h') (lt_irrefl _)⟩
    · exact ⟨le_of_eq h', fun _ => h''⟩

/-! ### Deduplication invariant (claim C7) -/

/-- Invariant of the `uniqueMap` fold: the accumulator has pairwise distinct
ids, each accumulated result is one of the processed matches and carries the
best score among processed matches with its id, and every processed id is
represented. -/
def DedupInv (processed acc : List MatchResult) : Prop :=
  acc.Pairwise (fun a b => a.id ≠ b.id) ∧
  (∀ r ∈ acc, r ∈ processed ∧
    ∀ m ∈ processed, m.id = r.id → m.matchScore ≤ r.matchScore) ∧
  (∀ m ∈ processed, ∃ r ∈ acc, r.id = m.id)

theorem dedupInsert_inv {pre acc : List MatchResult} {a : MatchResult}
    (h : DedupInv pre acc) : DedupInv (pre ++ [a]) (dedupInsert acc a) := by
  obtain ⟨hpw, hbest, hcover⟩ := h
  unfold dedupInsert
  by_cases hfound : acc.any (fun existing => decide (existing.id = a.id)) = true
  · rw [if_pos hfound]
    set g := fun existing : MatchResult =>
      if existing.id = a.id ∧ existing.matchScore < a.matchScore then a
      else existing with hg
    have hgid : ∀ x : MatchResult, (g x).id = x.id := by
      intro x
      simp only [hg]
      split
      · rename_i hx; exact hx.1.symm
      · rfl
    refine ⟨?_, ?_, ?_⟩
    · rw [List.pairwise_map]
      refine hpw.imp ?_
      intro x y hxy
      rw [hgid x, hgid y]
      exact hxy
    · intro r hr
      obtain ⟨x, hx, rfl⟩ := List.mem_map.mp hr
      simp only [hg]
      split
      · rename_i hcond
        refine ⟨List.mem_append_right _ (List.mem_singleton.mpr rfl), ?_⟩
        intro m hm hmid
        rcases List.mem_append.mp hm with hm | hm
        · have := ((hbest x hx).2 m hm (by rw [hmid, hcond.1]))
          exact this.trans (le_of_lt hcond.2)
        · rw [List.mem_singleton.mp hm]
      · rename_i hcond
        refine ⟨List.mem_append_left _ (hbest x hx).1, ?_⟩
        intro m hm hmid
        rcases List.mem_append.mp hm with hm | hm
        · exact (hbest x hx).2 m hm hmid
        · rw [List.mem_singleton.mp hm] at hmid ⊢
          rcases lt_or_le x.matchScore a.matchScore with hlt | hle
          · exact absurd ⟨hmid.symm, hlt⟩ hcond
          · exact hle
    · intro m hm
      rcases List.mem_append.mp hm with hm | hm
      · obtain ⟨r, hr, hrid⟩ := hcover m hm
        exact ⟨g r, List.mem_map_of_mem g hr, by rw [hgid r, hrid]⟩
      · rw [List.mem_singleton.mp hm]
        obtain ⟨e, he, heid⟩ := List.any_eq_true.mp hfound
        exact ⟨g e, List.mem_map_of_mem g he,
          by rw [hgid e]; exact of_decide_eq_true heid⟩
  · rw [if_neg hfound]
    have hnot : ∀ e ∈ acc, e.id ≠ a.id := by
      intro e he heid
      exact hfound (List.any_eq_true.mpr ⟨e, he, decide_eq_true heid⟩)
    refine ⟨?_, ?_, ?_⟩
    · rw [List.pairwise_append]
      exact ⟨hpw, List.pairwise_singleton _ _,
        fun x hx y hy => (List.mem_singleton.mp hy) ▸ hnot x hx⟩
    · intro r hr
      rcases List.mem_append.mp hr with hr | hr
      · refine ⟨List.mem_append_left _ (hbest r hr).1, ?_⟩
        intro m hm hmid
        rcases List.mem_append.mp hm with hm | hm
        · exact (hbest r hr).2 m hm hmid
        · rw [List.mem_singleton.mp hm] at hmid
          exact absurd hmid.symm (hnot r hr)
      · rw [List.mem_singleton.mp hr]
        refine ⟨List.mem_append_right _ (List.mem_singleton.mpr rfl), ?_⟩
        intro m hm hmid
        rcases List.mem_append.mp hm with hm | hm
        · obtain ⟨r', hr', hrid⟩ := hcover m hm
          exact absurd (hrid.trans hmid) (hnot r' hr')
        · rw [List.mem_singleton.mp hm]
    · intro m hm
      rcases List.mem_append.mp hm with hm | hm
      · obtain ⟨r, hr, hrid⟩ := hcover m hm
        exact ⟨r, List.mem_append_left _ hr, hrid⟩
      · exact ⟨a, List.mem_append_right _ (List.mem_singleton.mpr rfl),
          (List.mem_singleton.mp hm) ▸ rfl⟩

theorem dedup_foldl_inv :
    ∀ (rest pre acc : List MatchResult),
      DedupInv pre acc → DedupInv (pre ++ rest) (rest.foldl dedupInsert acc)
  | [], pre, acc, h => by simpa using h
  | a :: rest, pre, acc, h => by
    have h2 : DedupInv ((pre ++ [a]) ++ rest)
        (rest.foldl dedupInsert (dedupInsert acc a)) :=
      dedup_foldl_inv rest (pre ++ [a]) (dedupInsert acc a) (dedupInsert_inv h)
    simpa using h2

theorem dedup_inv (l : List MatchResult) :
    DedupInv l (l.foldl dedupInsert []) := by
  have h := dedup_foldl_inv l [] [] ⟨List.Pairwise.nil, by simp, by simp⟩
  simpa using h

/-- C7: each returned result list has pairwise distinct entry ids, and every
returned result is one of the accumulated matches and carries the maximal
score among accumulated matches for its id. -/
theorem search_results_unique_best (additives : List AdditiveEntry)
    (text : Str) :
    (searchAdditivesWithFuzzyMatching additives (some text)).Pairwise
        (fun a b => a.id ≠ b.id) ∧
    ∀ r ∈ searchAdditivesWithFuzzyMatching additives (some text),
      r ∈ foundMatches additives text ∧
      ∀ m ∈ foundMatches additives text, m.id = r.id →
        m.matchScore ≤ r.matchScore := by
  obtain ⟨hpw, hbest, -⟩ := dedup_inv (foundMatches additives text)
  have hperm := insSort_perm resultLE
    ((foundMatches additives text).foldl dedupInsert [])
  have hsub : List.Sublist (searchAdditivesWithFuzzyMatching additives (some text))
      (insSort resultLE ((foundMatches additives text).foldl dedupInsert [])) :=
    List.take_sublist 8 _
  constructor
  · refine List.Pairwise.sublist hsub ?_
    exact (hperm.pairwise_iff fun {_ _} h => Ne.symm h).mpr hpw
  · intro r hr
    exact hbest r (hperm.mem_iff.mp (hsub.subset hr))

set_option maxRecDepth 100000 in
/-- C7 witness: with a one-entry catalog whose name `"a bc"` normalizes to
the extracted keyword `"abc"`, the normalized-exact result is returned, is
among the accumulated matches, and carries the best score for its id. -/
theorem search_results_unique_best_witness :
    (searchAdditivesWithFuzzyMatching [⟨"x1".data, "a bc".data, [], none⟩]
        (some "abc".data)).Pairwise (fun a b => a.id ≠ b.id) ∧
    (⟨"x1".data, "a bc".data, [], none,
        "normalized_exact".data, 0.95, "abc".data⟩ : MatchResult) ∈
      foundMatches [⟨"x1".data, "a bc".data, [], none⟩] "abc".data :=
  ⟨(search_results_unique_best [⟨"x1".data, "a bc".data, [], none⟩]
      "abc".data).1,
   ((search_results_unique_best [⟨"x1".data, "a bc".data, [], none⟩]
        "abc".data).2
      ⟨"x1".data, "a bc".data, [], none,
        "normalized_exact".data, 0.95, "abc".data⟩
      (by with_unfolding_all decide)).1⟩

/-! ### Claim C1 -/

set_option maxRecDepth 100000 in
/-- C1: contrary to the specified scenario, an exact catalog hit is dropped:
with catalog entry `{id: citric-acid, name: 구연산, aliases: []}` and input
`"구연산"`, the search returns the empty list.  The exact-match strategy
records a `matchScore` of 1.0 in `bestMatch` but `break`s without updating
`bestScore`, so the final `bestScore > 0.2` gate discards the entry. -/
theorem exact_hit_dropped :
    searchAdditivesWithFuzzyMatching
        [⟨"citric-acid".data, "구연산".data, [], none⟩]
        (some "구연산".data) = [] := by with_unfolding_all decide

/-! ### Claim C2 -/

set_option maxRecDepth 100000 in
/-- C2 counterexample: after a failed fetch, a second call whose fetch would
succeed with live data still returns the memoized bundled snapshot — the
fallback is cached, so the live store is not retried. -/
theorem fallback_not_retried :
    (getCachedAdditives ((getCachedAdditives ⟨none, false⟩ .fail).2)
        (.ok [⟨"live-1".data, "live".data, [], none⟩])).1 =
      (getCachedAdditives ⟨none, false⟩ .fail).1 ∧
    (getCachedAdditives ((getCachedAdditives ⟨none, false⟩ .fail).2)
        (.ok [⟨"live-1".data, "live".data, [], none⟩])).1 ≠
      [⟨"live-1".data, "live".data, [], none⟩] := by
  exact ⟨rfl, by with_unfolding_all decide⟩

/-- C2 amended: on a failed fetch with an empty cache, `getCachedAdditives`
returns the bundled static snapshot, stores it in the cache and clears the
loading promise; and every call that finds a populated cache returns the
cached catalog unchanged, without consulting the store. -/
theorem fallback_memoized :
    (∀ b : Bool, getCachedAdditives ⟨none, b⟩ .fail =
        (additiveData, ⟨some additiveData, false⟩)) ∧
    ∀ (st : CacheState) (fetch : FetchOutcome) (cache : List AdditiveEntry),
      st.additivesCache = some cache →
        getCachedAdditives st fetch = (cache, st) := by
  constructor
  · intro b
    show (additiveData.map fun additive => { additive with id := additive.id },
        _) = _
    rw [List.map_id']
  · intro st fetch cache h
    unfold getCachedAdditives
    rw [h]

/-- C2 amended, witness: a call finding a populated cache returns it. -/
theorem fallback_memoized_witness :
    getCachedAdditives ⟨some [], true⟩ .fail = ([], ⟨some [], true⟩) :=
  fallback_memoized.2 ⟨some [], true⟩ .fail [] rfl

/-! ### Claim C8: idempotence of the normalizer -/

theorem toNat_ofNat_add32 (n : Nat) (h1 : 65 ≤ n) (h2 : n ≤ 90) :
    (Char.ofNat (n + 32)).toNat = n + 32 := by
  interval_cases n <;> rfl

theorem toLower_eq_ite (c : Char) :
    c.toLower =
      if 65 ≤ c.toNat ∧ c.toNat ≤ 90 then Char.ofNat (c.toNat + 32) else c :=
  rfl

theorem toLower_toLower (c : Char) : c.toLower.toLower = c.toLower := by
  rw [toLower_eq_ite c]
  by_cases h : 65 ≤ c.toNat ∧ c.toNat ≤ 90
  · rw [if_pos h, toLower_eq_ite, if_neg ?_]
    rintro ⟨-, hle⟩
    rw [toNat_ofNat_add32 c.toNat h.1 h.2] at hle
    omega
  · rw [if_neg h, toLower_eq_ite, if_neg h]

theorem map_eq_self_of_mem {α : Type} (f : α → α) (l : List α)
    (h : ∀ a ∈ l, f a = a) : l.map f = l := by
  induction l with
  | nil => rfl
  | cons a l ih =>
    rw [List.map_cons, h a (List.mem_cons_self a l),
      ih fun b hb => h b (List.mem_cons_of_mem a hb)]

theorem toLowerCase_normalizeText (s : Str) :
    toLowerCase (normalizeText s) = normalizeText s := by
  apply map_eq_self_of_mem
  intro a ha
  unfold normalizeText at ha
  have h1 := (List.mem_filter.mp ha).1
  have h2 := (List.mem_filter.mp h1).1
  have h3 := (List.mem_filter.mp h2).1
  obtain ⟨b, -, rfl⟩ := List.mem_map.mp h3
  exact toLower_toLower b

theorem filter_chain_idem (l : Str) :
    (((((((l.filter fun c => !isBracketQuote c).filter
        fun c => !isStripChar c).filter isKeptChar).filter
          fun c => !isBracketQuote c).filter
            fun c => !isStripChar c).filter isKeptChar)) =
      ((l.filter fun c => !isBracketQuote c).filter
        fun c => !isStripChar c).filter isKeptChar := by
  induction l with
  | nil => rfl
  | cons a l ih =>
    cases h1 : isBracketQuote a <;> cases h2 : isStripChar a <;>
      cases h3 : isKeptChar a <;>
        simp [List.filter_cons, h1, h2, h3, ih, -List.filter_filter]

/-- C8: the text normalizer is idempotent: normalizing an
already-normalized string leaves it unchanged. -/
theorem normalizeText_idem (s : Str) :
    normalizeText (normalizeText s) = normalizeText s := by
  show (((toLowerCase (normalizeText s)).filter _).filter _).filter _ = _
  rw [toLowerCase_normalizeText]
  exact filter_chain_idem (toLowerCase s)

/-! ### Claim C3: the partial-match score -/

set_option maxRecDepth 100000 in
/-- C3 counterexample: keyword `"a-b"` against catalog name `"a b"` is
classified partial (their normalized forms are both `"ab"`), and the
assigned score is `17/30`; but the claimed formula over the two compared
strings gives `min 0.9 ((2/2) * 0.85) = 0.85` on the normalized pair and
`min 0.9 ((3/3) * 0.85) = 0.85` on the raw pair, and `17/30 ≠ 0.85`. -/
theorem partial_score_two_lengths_cex :
    (findAdditiveMatches "a-b".data [⟨"x".data, "a b".data, [], none⟩]).map
        (fun r => (r.matchType, r.matchScore)) = [("partial".data, 17/30)] ∧
    (17/30 : ℚ) ≠ min 0.9 (((2 : ℚ) / (2 : ℚ)) * 0.85) ∧
    (17/30 : ℚ) ≠ min 0.9 (((3 : ℚ) / (3 : ℚ)) * 0.85) := by
  with_unfolding_all decide

/-- C3 amended: when a (keyword, searchTerm) pair is classified as a partial
match, the assigned candidate score is
`min(0.9, (shorter_len / longer_len) * 0.85)` where `shorter_len` and
`longer_len` are the minimum and maximum length over all FOUR compared
strings — the raw keyword, the raw search term, and both normalized forms —
and it replaces the running best only when strictly greater. -/
theorem partial_score_four_lengths (keyword searchTerm : Str)
    (rest : List Str) (bestMatch : Option MatchInfo) (bestScore : ℚ)
    (hexact : searchTerm ≠ toLowerCase keyword)
    (hnorm : ¬(normalizeText (correctOCRErrors searchTerm) =
        normalizeText (correctOCRErrors keyword) ∧
        2 < (normalizeText (correctOCRErrors keyword)).length))
    (hpart : isPartialMatch keyword searchTerm
        (normalizeText (correctOCRErrors keyword))
        (normalizeText (correctOCRErrors searchTerm)) = true) :
    matchLoop keyword (normalizeText (correctOCRErrors keyword))
        (searchTerm :: rest) bestMatch bestScore =
      (if bestScore <
          min 0.9
            ((((min (min searchTerm.length keyword.length)
                (min (normalizeText (correctOCRErrors searchTerm)).length
                  (normalizeText (correctOCRErrors keyword)).length) : ℕ) : ℚ) /
              (((max (max searchTerm.length keyword.length)
                (max (normalizeText (correctOCRErrors searchTerm)).length
                  (normalizeText (correctOCRErrors keyword)).length) : ℕ) : ℚ))) *
              0.85) then
        matchLoop keyword (normalizeText (correctOCRErrors keyword)) rest
          (some ⟨"partial".data,
            min 0.9
              ((((min (min searchTerm.length keyword.length)
                  (min (normalizeText (correctOCRErrors searchTerm)).length
                    (normalizeText (correctOCRErrors keyword)).length) : ℕ) : ℚ) /
                (((max (max searchTerm.length keyword.length)
                  (max (normalizeText (correctOCRErrors searchTerm)).length
                    (normalizeText (correctOCRErrors keyword)).length) : ℕ) : ℚ))) *
                0.85), keyword⟩)
          (min 0.9
            ((((min (min searchTerm.length keyword.length)
                (min (normalizeText (correctOCRErrors searchTerm)).length
                  (normalizeText (correctOCRErrors keyword)).length) : ℕ) : ℚ) /
              (((max (max searchTerm.length keyword.length)
                (max (normalizeText (correctOCRErrors searchTerm)).length
                  (normalizeText (correctOCRErrors keyword)).length) : ℕ) : ℚ))) *
              0.85))
      else
        matchLoop keyword (normalizeText (correctOCRErrors keyword)) rest
          bestMatch bestScore) := by
  conv_lhs => rw [matchLoop]
  rw [if_neg hexact, if_neg hnorm, if_pos hpart]

set_option maxRecDepth 100000 in
/-- C3 amended, witness: for keyword `"a-b"` and search term `"a b"` the
partial strategy assigns `min 0.9 ((2/3) * 0.85) = 17/30`, the minimum and
maximum lengths being taken over all four compared strings. -/
theorem partial_score_four_lengths_witness :
    matchLoop "a-b".data (normalizeText (correctOCRErrors "a-b".data))
        ["a b".data] none 0 =
      (some ⟨"partial".data, 17/30, "a-b".data⟩, 17/30) := by
  rw [partial_score_four_lengths "a-b".data "a b".data [] none 0
    (by decide) (by decide) (by decide)]
  with_unfolding_all decide

/-! ### Claim C9: the fuzzy strategy -/

/-- The fuzzy similarity as the specification words it: character-set
Jaccard similarity of the normalized forms plus a 0.2 substring bonus when
either normalized form contains the other, capped at 1 — with no special
cases for equal or empty inputs. -/
def specFuzzySimilarity (s1 s2 : Str) : ℚ :=
  let normalized1 := normalizeText (correctOCRErrors s1)
  let normalized2 := normalizeText (correctOCRErrors s2)
  let set1 := jsSetDedup normalized1
  let set2 := jsSetDedup normalized2
  let inter := (set1.filter fun c => decide (c ∈ set2)).length
  let union := (jsSetDedup (set1 ++ set2)).length
  let substringBonus : ℚ :=
    max (if jsIncludes normalized1 normalized2 then 0.2 else 0)
        (if jsIncludes normalized2 normalized1 then 0.2 else 0)
  min 1 ((inter : ℚ) / (union : ℚ) + substringBonus)

/-- The fuzzy acceptance threshold as the specification words it: 0.3 for
keywords longer than 4 characters, 0.5 otherwise. -/
def specThreshold (keyword : Str) : ℚ :=
  if 4 < keyword.length then 0.3 else 0.5

theorem jsIncludes_nil (s : Str) : jsIncludes s [] = true := by
  cases s <;> rfl

theorem jsIncludes_self (s : Str) : jsIncludes s s = true := by
  cases s with
  | nil => rfl
  | cons a r =>
    unfold jsIncludes
    rw [List.isPrefixOf_iff_prefix.mpr (List.prefix_refl _), Bool.true_or]

/-- C9: for every pair that reaches the fuzzy strategy (strategies 1 to 3
all fail), the computed similarity coincides with the specification's
Jaccard-plus-bonus formula on the normalized forms, and the candidate is
recorded with score `similarity * 0.7` exactly when the similarity reaches
the length-dependent threshold and the score beats the running best. -/
theorem fuzzy_similarity_spec (keyword searchTerm : Str)
    (rest : List Str) (bestMatch : Option MatchInfo) (bestScore : ℚ)
    (hexact : searchTerm ≠ toLowerCase keyword)
    (hnorm : ¬(normalizeText (correctOCRErrors searchTerm) =
        normalizeText (correctOCRErrors keyword) ∧
        2 < (normalizeText (correctOCRErrors keyword)).length))
    (hpart : isPartialMatch keyword searchTerm
        (normalizeText (correctOCRErrors keyword))
        (normalizeText (correctOCRErrors searchTerm)) = false) :
    calculateStringSimilarity keyword searchTerm =
      specFuzzySimilarity keyword searchTerm ∧
    matchLoop keyword (normalizeText (correctOCRErrors keyword))
        (searchTerm :: rest) bestMatch bestScore =
      (if specThreshold keyword ≤ calculateStringSimilarity keyword searchTerm ∧
          bestScore < calculateStringSimilarity keyword searchTerm * 0.7 then
        matchLoop keyword (normalizeText (correctOCRErrors keyword)) rest
          (some ⟨"fuzzy".data,
            calculateStringSimilarity keyword searchTerm * 0.7, keyword⟩)
          (calculateStringSimilarity keyword searchTerm * 0.7)
      else
        matchLoop keyword (normalizeText (correctOCRErrors keyword)) rest
          bestMatch bestScore) := by
  have hp := hpart
  unfold isPartialMatch at hp
  rw [Bool.or_eq_false_iff, Bool.or_eq_false_iff, Bool.or_eq_false_iff] at hp
  obtain ⟨⟨⟨-, hB⟩, -⟩, hD⟩ := hp
  have hn1 : normalizeText (correctOCRErrors keyword) ≠ [] := by
    intro h
    rw [h, jsIncludes_nil] at hB
    exact Bool.true_eq_false ▸ hB
  have hn2 : normalizeText (correctOCRErrors searchTerm) ≠ [] := by
    intro h
    rw [h, jsIncludes_nil] at hD
    exact Bool.true_eq_false ▸ hD
  have hne : normalizeText (correctOCRErrors keyword) ≠
      normalizeText (correctOCRErrors searchTerm) := by
    intro h
    rw [h, jsIncludes_self] at hB
    exact Bool.true_eq_false ▸ hB
  have hkw : keyword ≠ searchTerm := fun h => hne (by rw [h])
  have hlen : ¬(keyword.length = 0 ∨ searchTerm.length = 0) := by
    rintro (h | h)
    · exact hn1 (by rw [List.length_eq_zero.mp h]; rfl)
    · exact hn2 (by rw [List.length_eq_zero.mp h]; rfl)
  constructor
  · show (if keyword = searchTerm then (1 : ℚ) else _) = _
    rw [if_neg hkw, if_neg hlen, if_neg hne]
    rfl
  · conv_lhs => rw [matchLoop]
    rw [if_neg hexact, if_neg hnorm, if_neg (by rw [hpart]; exact Bool.false_ne_true)]
    rfl

set_option maxRecDepth 100000 in
/-- C9 witness: keyword `"abc"` against search term `"abd"` reaches the
fuzzy strategy; its similarity equals the specification formula, and the
fuzzy acceptance step behaves as specified. -/
theorem fuzzy_similarity_spec_witness :
    calculateStringSimilarity "abc".data "abd".data =
      specFuzzySimilarity "abc".data "abd".data ∧
    matchLoop "abc".data (normalizeText (correctOCRErrors "abc".data))
        ["abd".data] none 0 =
      (if specThreshold "abc".data ≤
            calculateStringSimilarity "abc".data "abd".data ∧
          (0 : ℚ) < calculateStringSimilarity "abc".data "abd".data * 0.7 then
        matchLoop "abc".data (normalizeText (correctOCRErrors "abc".data)) []
          (some ⟨"fuzzy".data,
            calculateStringSimilarity "abc".data "abd".data * 0.7,
            "abc".data⟩)
          (calculateStringSimilarity "abc".data "abd".data * 0.7)
      else
        matchLoop "abc".data (normalizeText (correctOCRErrors "abc".data)) []
          none 0) :=
  fuzzy_similarity_spec "abc".data "abd".data [] none 0 (by decide)
    (by decide) (by decide)

/-- C6 witness: the sortedness guarantee at a concrete catalog and input. -/
theorem search_results_sorted_witness :
    (searchAdditivesWithFuzzyMatching [⟨"x1".data, "a bc".data, [], none⟩]
        (some "abc".data)).Pairwise
      (fun a b => b.matchScore ≤ a.matchScore ∧
        (a.matchScore = b.matchScore →
          hazardRank a.hazard_level ≤ hazardRank b.hazard_level)) :=
  search_results_sorted [⟨"x1".data, "a bc".data, [], none⟩]
    (some "abc".data)

/-! ### Claim C10: the OCR substitution table collapses lookalikes -/

/-- The collapse map the sequenced substitutions amount to: `1` and `l` end
as `1`; `0`, `o` and the jamo `ㅇ` end as `0`; `5`, `s` and the jamo `ㅅ` end
as `5`; every other character is corrected independently of its context. -/
def ocrCanonical (c : Char) : Str :=
  if c = '1' ∨ c = 'l' then ['1']
  else if c = '0' ∨ c = 'o' ∨ c = 'ㅇ' then ['0']
  else if c = '5' ∨ c = 's' ∨ c = 'ㅅ' then ['5']
  else correctOCRErrors [c]

theorem replaceAllChar_append (c : Char) (r s t : Str) :
    replaceAllChar c r (s ++ t) =
      replaceAllChar c r s ++ replaceAllChar c r t := by
  simp [replaceAllChar]

theorem correctOCRErrors_append (s t : Str) :
    correctOCRErrors (s ++ t) = correctOCRErrors s ++ correctOCRErrors t := by
  have key : ∀ (ps : List (Char × Str)) (s t : Str),
      ps.foldl (fun acc p => replaceAllChar p.1 p.2 acc) (s ++ t) =
        ps.foldl (fun acc p => replaceAllChar p.1 p.2 acc) s ++
          ps.foldl (fun acc p => replaceAllChar p.1 p.2 acc) t := by
    intro ps
    induction ps with
    | nil => intro s t; rfl
    | cons p ps ih =>
      intro s t
      simp only [List.foldl_cons]
      rw [replaceAllChar_append]
      exact ih _ _
  exact key corrections s t

theorem correctOCRErrors_flatMap (s : Str) :
    correctOCRErrors s = s.flatMap fun c => correctOCRErrors [c] := by
  induction s with
  | nil => rfl
  | cons c rest ih =>
    show correctOCRErrors ([c] ++ rest) = _
    rw [correctOCRErrors_append, ih]
    rfl

theorem correctOCRErrors_single (c : Char) :
    correctOCRErrors [c] = ocrCanonical c := by
  unfold ocrCanonical
  by_cases h1 : c = '1' ∨ c = 'l'
  · rw [if_pos h1]; rcases h1 with rfl | rfl <;> rfl
  · rw [if_neg h1]
    by_cases h2 : c = '0' ∨ c = 'o' ∨ c = 'ㅇ'
    · rw [if_pos h2]; rcases h2 with rfl | rfl | rfl <;> rfl
    · rw [if_neg h2]
      by_cases h3 : c = '5' ∨ c = 's' ∨ c = 'ㅅ'
      · rw [if_pos h3]; rcases h3 with rfl | rfl | rfl <;> rfl
      · rw [if_neg h3]

theorem correctOCRErrors_single_id (c : Char)
    (h : ∀ p ∈ corrections, c ≠ p.1) : correctOCRErrors [c] = [c] := by
  have key : ∀ ps : List (Char × Str), (∀ p ∈ ps, c ≠ p.1) →
      ps.foldl (fun acc p => replaceAllChar p.1 p.2 acc) [c] = [c] := by
    intro ps
    induction ps with
    | nil => intro _; rfl
    | cons p ps ih =>
      intro hps
      simp only [List.foldl_cons]
      have hstep : replaceAllChar p.1 p.2 [c] = [c] := by
        simp [replaceAllChar, hps p (List.mem_cons_self p ps)]
      rw [hstep]
      exact ih fun q hq => hps q (List.mem_cons_of_mem p hq)
  exact key corrections h

theorem correctOCRErrors_single_no_los (c : Char) :
    'l' ∉ correctOCRErrors [c] ∧ 'o' ∉ correctOCRErrors [c] ∧
      's' ∉ correctOCRErrors [c] := by
  by_cases hc : c ∈ ['0', '1', '5', 'ㅇ', 'ㅁ', 'ㄴ', 'ㄹ', 'ㅅ', 'ㅌ', 'ㅍ',
      'ㅎ', 'l', 'o', 's', '·', '•', '－', '—', ' ', ' ', '​']
  · fin_cases hc <;> decide
  · have hid : correctOCRErrors [c] = [c] := by
      apply correctOCRErrors_single_id
      intro p hp heq
      apply hc
      rw [heq]
      fin_cases hp <;> decide
    rw [hid]
    refine ⟨?_, ?_, ?_⟩ <;> intro hmem <;>
      cases List.mem_singleton.mp hmem <;> exact hc (by decide)

/-- C10: the sequenced global substitutions collapse each lookalike group to
one canonical character: the corrected text is obtained by correcting each
character independently, with `1`/`l` becoming `1`, `0`/`o`/`ㅇ` becoming
`0` and `5`/`s`/`ㅅ` becoming `5`; consequently the output never contains
the lowercase letters `l`, `o` or `s`. -/
theorem ocr_collapses_lookalikes (s : Str) :
    correctOCRErrors s = (s.flatMap ocrCanonical) ∧
    ∀ c ∈ correctOCRErrors s, c ≠ 'l' ∧ c ≠ 'o' ∧ c ≠ 's' := by
  constructor
  · rw [correctOCRErrors_flatMap]
    simp only [correctOCRErrors_single]
  · intro c hc
    rw [correctOCRErrors_flatMap] at hc
    obtain ⟨a, -, hmem⟩ := List.mem_flatMap.mp hc
    obtain ⟨hl, ho, hs⟩ := correctOCRErrors_single_no_los a
    refine ⟨?_, ?_, ?_⟩ <;> rintro rfl
    · exact hl hmem
    · exact ho hmem
    · exact hs hmem

/-- C10 witness: the collapse evaluated on a string holding every lookalike,
and the no-`l`/`o`/`s` guarantee instantiated at its first output
character. -/
theorem ocr_collapses_lookalikes_witness :
    correctOCRErrors "1l0o5sㅇㅅ".data =
      ("1l0o5sㅇㅅ".data.flatMap ocrCanonical) ∧
    ('1' ≠ 'l' ∧ '1' ≠ 'o' ∧ '1' ≠ 's') :=
  ⟨(ocr_collapses_lookalikes "1l0o5sㅇㅅ".data).1,
   (ocr_collapses_lookalikes "1l0o5sㅇㅅ".data).2 '1' (by decide)⟩

end AdditiveSearch
